import Mathlib

/-!
Verification of the RSS aggregator core (`app/database.py`, `app/main.py`,
`app/rss_generator.py`) against its specification.

The SQLite tables are embedded as Lean lists of records.  Timestamps are
modelled as `Nat` (the code only ever compares them).  Each database
operation of `app/database.py` becomes a pure function on a `DB` state;
the autoincrement rowid counters are carried explicitly
(`nextItemId` / `nextSourceId`), and SQLite's `CURRENT_TIMESTAMP` /
`datetime.now()` become an explicit `now : Nat` argument.
-/

namespace RssAgg

/-- Row of the `feed_sources` table (`database.py`, `init_db`):
`id INTEGER PRIMARY KEY AUTOINCREMENT, url TEXT UNIQUE, name TEXT,
last_updated TIMESTAMP (nullable), created_at TIMESTAMP`.
Note the table has no `max_items` column. -/
structure FeedSource where
  id : Nat
  url : String
  name : String
  last_updated : Option Nat
  created_at : Nat
  deriving DecidableEq

/-- Row of the `feed_items` table (`database.py`, `init_db`):
surrogate `id` (AUTOINCREMENT), `feed_id`, `guid`, `title`, `link`,
`description`, `pub_date`, `author`, `created_at`, with
`UNIQUE(feed_id, guid)`.  `pub_date` is modelled as `Nat`: every row is
written by `add_feed_items`, whose input dictionaries always carry a
non-null `pub_date` (see `fetch_and_update_feed`). -/
structure FeedItem where
  id : Nat
  feed_id : Nat
  guid : String
  title : String
  link : String
  description : String
  pub_date : Nat
  author : String
  created_at : Nat
  deriving DecidableEq

/-- The item dictionary built in `fetch_and_update_feed` and passed to
`add_feed_items`. -/
structure ItemData where
  guid : String
  title : String
  link : String
  description : String
  pub_date : Nat
  author : String
  deriving DecidableEq

/-- The whole SQLite database plus the two autoincrement counters. -/
structure DB where
  sources : List FeedSource
  items : List FeedItem
  nextSourceId : Nat
  nextItemId : Nat
  deriving DecidableEq

/-- `ORDER BY pub_date DESC`: `a` precedes `b` when `b.pub_date ≤ a.pub_date`.
SQLite leaves the relative order of ties unspecified; the embedding fixes
them by a stable sort over table order. -/
def itemDescR (a b : FeedItem) : Prop := b.pub_date ≤ a.pub_date

instance : DecidableRel itemDescR :=
  fun a b => inferInstanceAs (Decidable (b.pub_date ≤ a.pub_date))

instance : IsTotal FeedItem itemDescR :=
  ⟨fun a b => Nat.le_total b.pub_date a.pub_date⟩

instance : IsTrans FeedItem itemDescR :=
  ⟨fun _ _ _ hab hbc => Nat.le_trans hbc hab⟩

/-- One `INSERT OR REPLACE INTO feed_items` statement from the loop in
`add_feed_items` (`database.py` lines 116-129).  SQLite deletes every row
conflicting on `UNIQUE(feed_id, guid)` and inserts a fresh row; since the
`id` column is not supplied, the new row gets the next AUTOINCREMENT rowid
and a fresh `created_at` default. -/
def upsertItem (db : DB) (fid : Nat) (it : ItemData) (now : Nat) : DB :=
  { db with
    items :=
      (db.items.filter (fun r => !(r.feed_id = fid ∧ r.guid = it.guid : Bool))) ++
        [{ id := db.nextItemId, feed_id := fid, guid := it.guid,
           title := it.title, link := it.link, description := it.description,
           pub_date := it.pub_date, author := it.author, created_at := now }],
    nextItemId := db.nextItemId + 1 }

/-- The `for item in items` upsert loop of `add_feed_items`. -/
def upsertAll (db : DB) (fid : Nat) (batch : List ItemData) (now : Nat) : DB :=
  batch.foldl (fun d it => upsertItem d fid it now) db

/-- `UPDATE feed_sources SET last_updated = ? WHERE id = ?`
(`database.py` lines 132-135). -/
def stampSource (db : DB) (fid : Nat) (now : Nat) : DB :=
  { db with
    sources := db.sources.map
      (fun s => if s.id = fid then { s with last_updated := some now } else s) }

/-- The trim subquery `SELECT id FROM feed_items WHERE feed_id = ?
ORDER BY pub_date DESC LIMIT ?` (`database.py` lines 141-144). -/
def keepIds (db : DB) (fid maxItems : Nat) : List Nat :=
  ((List.insertionSort itemDescR
      (db.items.filter (fun r => (r.feed_id = fid : Bool)))).take maxItems).map
    (fun r => r.id)

/-- `DELETE FROM feed_items WHERE feed_id = ? AND id NOT IN (subquery)`
(`database.py` lines 138-146). -/
def trimFeed (db : DB) (fid maxItems : Nat) : DB :=
  { db with
    items := db.items.filter
      (fun r => !(r.feed_id = fid ∧ r.id ∉ keepIds db fid maxItems : Bool)) }

/-- `add_feed_items(feed_id, items, max_items)` (`database.py` lines
113-148): upsert every batch item, stamp `last_updated`, then trim the
source to its newest `max_items` rows. -/
def add_feed_items (db : DB) (fid : Nat) (batch : List ItemData)
    (maxItems now : Nat) : DB :=
  trimFeed (stampSource (upsertAll db fid batch now) fid now) fid maxItems

/-- `get_feed_items(feed_id, limit)` (`database.py` lines 151-162):
`SELECT * FROM feed_items WHERE feed_id = ? ORDER BY pub_date DESC
LIMIT ?`.  There is no visibility column and no visibility filter. -/
def get_feed_items (db : DB) (fid limit : Nat) : List FeedItem :=
  (List.insertionSort itemDescR
      (db.items.filter (fun r => (r.feed_id = fid : Bool)))).take limit

/-- `cleanup_old_items(cutoff_date)` (`database.py` lines 165-172):
`DELETE FROM feed_items WHERE pub_date < ?`. -/
def cleanup_old_items (db : DB) (cutoff : Nat) : DB :=
  { db with items := db.items.filter (fun r => !(r.pub_date < cutoff : Bool)) }

/-- `add_feed_source(url, name)` (`database.py` lines 53-70):
`INSERT OR IGNORE INTO feed_sources (url, name)`, then return
`cursor.lastrowid` when a row was inserted.  When the insert is ignored,
`lastrowid` is falsy on the freshly opened connection and the function
falls back to `SELECT id FROM feed_sources WHERE url = ?`.  `created_at`
takes the `CURRENT_TIMESTAMP` default, modelled by `now`. -/
def add_feed_source (db : DB) (url name : String) (now : Nat) : DB × Nat :=
  match db.sources.find? (fun s => (s.url = url : Bool)) with
  | some s => (db, s.id)
  | none =>
      ({ db with
          sources := db.sources ++
            [{ id := db.nextSourceId, url := url, name := name,
               last_updated := none, created_at := now }],
          nextSourceId := db.nextSourceId + 1 },
        db.nextSourceId)

/-- Well-formedness maintained by the autoincrement rowids: all item ids
are distinct and below the next counter value. -/
def DB.WFitems (db : DB) : Prop :=
  (db.items.map (fun r => r.id)).Nodup ∧ ∀ r ∈ db.items, r.id < db.nextItemId

/-- Well-formedness of `feed_sources`: `url` is UNIQUE, ids are distinct
AUTOINCREMENT values below the counter. -/
def DB.WFsources (db : DB) : Prop :=
  (db.sources.map (fun s => s.url)).Nodup ∧
    (db.sources.map (fun s => s.id)).Nodup ∧
    ∀ s ∈ db.sources, s.id < db.nextSourceId

instance (db : DB) : Decidable db.WFitems := by
  unfold DB.WFitems; infer_instance

instance (db : DB) : Decidable db.WFsources := by
  unfold DB.WFsources; infer_instance

/-- The key predicate of the `UNIQUE(feed_id, guid)` constraint. -/
def keyP (fid : Nat) (g : String) (r : FeedItem) : Bool :=
  (r.feed_id = fid ∧ r.guid = g : Bool)

lemma length_filter_split (l : List α) (p q : α → Bool) :
    (l.filter q).length =
      (l.filter (fun a => q a && p a)).length +
        (l.filter (fun a => q a && !p a)).length := by
  induction l with
  | nil => simp
  | cons a t ih =>
      by_cases hq : q a <;> by_cases hp : p a <;>
        simp [List.filter_cons, hq, hp, ih] <;> omega

/-- After an upsert, the rows matching the upserted key are exactly the
single freshly inserted row. -/
lemma filter_key_upsertItem (db : DB) (fid : Nat) (it : ItemData) (now : Nat) :
    (upsertItem db fid it now).items.filter (keyP fid it.guid) =
      [{ id := db.nextItemId, feed_id := fid, guid := it.guid,
         title := it.title, link := it.link, description := it.description,
         pub_date := it.pub_date, author := it.author, created_at := now }] := by
  simp only [upsertItem, List.filter_append, List.filter_filter]
  have h1 : db.items.filter
      (fun r => keyP fid it.guid r && !(r.feed_id = fid ∧ r.guid = it.guid : Bool)) = [] := by
    apply List.filter_eq_nil_iff.mpr
    intro a _
    simp [keyP]
  rw [h1]
  simp [keyP]

/-- C2: upserting an entry whose guid is already present for the source
replaces the stored row's fields (title, body, date) rather than
inserting a second row: afterwards `(source id, guid)` is still unique
and the entry count for that source is unchanged. -/
theorem upsert_existing_guid_replaces (db : DB) (fid : Nat) (it : ItemData)
    (now : Nat) (hone : (db.items.filter (keyP fid it.guid)).length = 1) :
    ((upsertItem db fid it now).items.filter (keyP fid it.guid)).length = 1 ∧
      (∀ r ∈ (upsertItem db fid it now).items.filter (keyP fid it.guid),
        r.title = it.title ∧ r.description = it.description ∧
          r.pub_date = it.pub_date) ∧
      ((upsertItem db fid it now).items.filter
          (fun r => (r.feed_id = fid : Bool))).length =
        (db.items.filter (fun r => (r.feed_id = fid : Bool))).length := by
  refine ⟨by simp [filter_key_upsertItem], ?_, ?_⟩
  · intro r hr
    rw [filter_key_upsertItem] at hr
    simp only [List.mem_singleton] at hr
    subst hr
    exact ⟨rfl, rfl, rfl⟩
  · have hsplit := length_filter_split db.items (keyP fid it.guid)
      (fun r => (r.feed_id = fid : Bool))
    have hcongr : db.items.filter
        (fun a => (a.feed_id = fid : Bool) && keyP fid it.guid a) =
        db.items.filter (keyP fid it.guid) := by
      apply List.filter_congr
      intro a _
      by_cases h : keyP fid it.guid a
      · have hk : a.feed_id = fid ∧ a.guid = it.guid := by simpa [keyP] using h
        simp [h, hk.1]
      · simp [h]
    simp only [upsertItem, List.filter_append, List.filter_filter,
      List.length_append, List.filter_cons, List.filter_nil]
    rw [hsplit, hcongr, hone]
    have hsame : db.items.filter
        (fun a => (a.feed_id = fid : Bool) &&
          !(a.feed_id = fid ∧ a.guid = it.guid : Bool)) =
        db.items.filter
          (fun a => (a.feed_id = fid : Bool) && !(keyP fid it.guid a)) := by
      simp [keyP]
    simp only [hsame]
    simp
    omega

/-- C2 witness: a concrete database with one stored row for the key. -/
theorem upsert_existing_guid_replaces_witness :
    (let db : DB :=
      { sources := [], items :=
          [{ id := 0, feed_id := 1, guid := "g", title := "old", link := "l",
             description := "oldbody", pub_date := 5, author := "a",
             created_at := 0 }],
        nextSourceId := 0, nextItemId := 1 }
     let it : ItemData :=
      { guid := "g", title := "new", link := "l2", description := "newbody",
        pub_date := 9, author := "b" }
     (db.items.filter (keyP 1 it.guid)).length = 1 ∧
      (((upsertItem db 1 it 7).items.filter (keyP 1 it.guid)).length = 1 ∧
        (∀ r ∈ (upsertItem db 1 it 7).items.filter (keyP 1 it.guid),
          r.title = it.title ∧ r.description = it.description ∧
            r.pub_date = it.pub_date) ∧
        ((upsertItem db 1 it 7).items.filter
            (fun r => (r.feed_id = 1 : Bool))).length =
          (db.items.filter (fun r => (r.feed_id = 1 : Bool))).length)) :=
  ⟨by decide, upsert_existing_guid_replaces _ 1 _ 7 (by decide)⟩

/-- C10: the replacement is a delete-plus-insert: the row stored for the
key after the upsert carries the fresh autoincrement id and a fresh
creation timestamp, the old surrogate id differs from the new one, and no
row with the old id remains (external references to it dangle). -/
theorem upsert_changes_surrogate_id (db : DB) (fid : Nat) (it : ItemData)
    (now : Nat) (r : FeedItem) (hWF : db.WFitems) (hr : r ∈ db.items)
    (hfeed : r.feed_id = fid) (hguid : r.guid = it.guid) :
    ((upsertItem db fid it now).items.filter (keyP fid it.guid)).map
        (fun x => (x.id, x.created_at)) = [(db.nextItemId, now)] ∧
      r.id ≠ db.nextItemId ∧
      ∀ x ∈ (upsertItem db fid it now).items, x.id ≠ r.id := by
  refine ⟨by simp [filter_key_upsertItem], ?_, ?_⟩
  · exact Nat.ne_of_lt (hWF.2 r hr)
  · intro x hx
    simp only [upsertItem, List.mem_append, List.mem_filter,
      List.mem_singleton] at hx
    rcases hx with ⟨hxm, hxk⟩ | hxnew
    · intro hid
      have hxr : x = r := List.inj_on_of_nodup_map hWF.1 hxm hr hid
      subst hxr
      simp [hfeed, hguid] at hxk
    · subst hxnew
      simpa using Nat.ne_of_gt (hWF.2 r hr)

lemma count_url_of_mem (l : List FeedSource)
    (hnd : (l.map (fun s => s.url)).Nodup) (s : FeedSource) (hs : s ∈ l) :
    (l.filter (fun x => (x.url = s.url : Bool))).length = 1 := by
  induction l with
  | nil => cases hs
  | cons a t ih =>
      simp only [List.map_cons, List.nodup_cons, List.mem_map] at hnd
      rcases List.mem_cons.mp hs with hsa | hst
      · subst hsa
        have ht : t.filter (fun x => (x.url = s.url : Bool)) = [] := by
          apply List.filter_eq_nil_iff.mpr
          intro x hx hxu
          exact hnd.1 ⟨x, hx, by simpa using hxu⟩
        simp [List.filter_cons, ht]
      · have hne : ¬ (a.url = s.url) := by
          intro h
          exact hnd.1 ⟨s, hst, h.symm⟩
        simp [List.filter_cons, hne, ih hnd.2 hst]

/-- C6: registration is idempotent by URL: a second registration of the
same URL returns the same id, leaves the whole `feed_sources` state
untouched (in particular the stored name; the table has no cap column),
and the URL is stored in exactly one row. -/
theorem register_twice_idempotent (db : DB) (url name1 name2 : String)
    (now1 now2 : Nat) (hWF : db.WFsources) :
    (add_feed_source (add_feed_source db url name1 now1).1 url name2 now2).2 =
        (add_feed_source db url name1 now1).2 ∧
      (add_feed_source (add_feed_source db url name1 now1).1 url name2 now2).1 =
        (add_feed_source db url name1 now1).1 ∧
      ((add_feed_source db url name1 now1).1.sources.filter
          (fun s => (s.url = url : Bool))).length = 1 := by
  cases hfind : db.sources.find? (fun s => (s.url = url : Bool)) with
  | some s =>
      have hsu : s.url = url := by
        simpa using List.find?_some hfind
      have hmem : s ∈ db.sources := List.mem_of_find?_eq_some hfind
      have h1 : add_feed_source db url name1 now1 = (db, s.id) := by
        unfold add_feed_source
        rw [hfind]
      have h2 : add_feed_source db url name2 now2 = (db, s.id) := by
        unfold add_feed_source
        rw [hfind]
      rw [h1]
      dsimp only
      rw [h2]
      refine ⟨rfl, rfl, ?_⟩
      have := count_url_of_mem db.sources hWF.1 s hmem
      rwa [hsu] at this
  | none =>
      have hnone : ∀ x ∈ db.sources, ¬ (x.url = url : Bool) = true :=
        List.find?_eq_none.mp hfind
      have h1 : add_feed_source db url name1 now1 =
          ({ db with
              sources := db.sources ++
                [({ id := db.nextSourceId, url := url, name := name1,
                    last_updated := none, created_at := now1 } : FeedSource)],
              nextSourceId := db.nextSourceId + 1 }, db.nextSourceId) := by
        unfold add_feed_source
        rw [hfind]
      have hfind2 : (db.sources ++
          [({ id := db.nextSourceId, url := url, name := name1,
              last_updated := none, created_at := now1 } : FeedSource)]).find?
            (fun s => (s.url = url : Bool)) =
          some { id := db.nextSourceId, url := url, name := name1,
                 last_updated := none, created_at := now1 } := by
        rw [List.find?_append, hfind]
        simp
      have h2 : add_feed_source
          ({ db with
              sources := db.sources ++
                [({ id := db.nextSourceId, url := url, name := name1,
                    last_updated := none, created_at := now1 } : FeedSource)],
              nextSourceId := db.nextSourceId + 1 } : DB) url name2 now2 =
          (({ db with
              sources := db.sources ++
                [({ id := db.nextSourceId, url := url, name := name1,
                    last_updated := none, created_at := now1 } : FeedSource)],
              nextSourceId := db.nextSourceId + 1 } : DB), db.nextSourceId) := by
        unfold add_feed_source
        dsimp only
        rw [hfind2]
      rw [h1]
      dsimp only
      rw [h2]
      refine ⟨rfl, rfl, ?_⟩
      have hnil : db.sources.filter (fun s => (s.url = url : Bool)) = [] :=
        List.filter_eq_nil_iff.mpr hnone
      simp [List.filter_append, hnil]

/-- C6 witness: registering the same URL twice on a one-source database. -/
theorem register_twice_idempotent_witness :
    (let db : DB :=
      { sources := [{ id := 3, url := "http://a", name := "A",
                      last_updated := none, created_at := 0 }],
        items := [], nextSourceId := 4, nextItemId := 0 }
     db.WFsources ∧
      ((add_feed_source (add_feed_source db "http://b" "B1" 1).1 "http://b"
            "B2" 2).2 =
          (add_feed_source db "http://b" "B1" 1).2 ∧
        (add_feed_source (add_feed_source db "http://b" "B1" 1).1 "http://b"
            "B2" 2).1 =
          (add_feed_source db "http://b" "B1" 1).1 ∧
        ((add_feed_source db "http://b" "B1" 1).1.sources.filter
            (fun s => (s.url = "http://b" : Bool))).length = 1)) :=
  ⟨by decide, register_twice_idempotent _ "http://b" "B1" "B2" 1 2 (by decide)⟩

/-- The rows a source owns: `feed_items` restricted to one `feed_id`. -/
def feedRows (db : DB) (fid : Nat) : List FeedItem :=
  db.items.filter (fun r => (r.feed_id = fid : Bool))

lemma WFitems_upsertItem (db : DB) (fid : Nat) (it : ItemData) (now : Nat)
    (h : db.WFitems) : (upsertItem db fid it now).WFitems := by
  obtain ⟨hnd, hbound⟩ := h
  constructor
  · simp only [upsertItem, List.map_append, List.map_cons, List.map_nil]
    rw [List.nodup_append]
    refine ⟨((List.filter_sublist _).map _).nodup hnd, List.nodup_singleton _, ?_⟩
    intro a ha hb
    simp only [List.mem_singleton] at hb
    subst hb
    simp only [List.mem_map, List.mem_filter] at ha
    obtain ⟨r, ⟨hr, _⟩, hrid⟩ := ha
    exact absurd hrid (Nat.ne_of_lt (hbound r hr))
  · intro r hr
    simp only [upsertItem, List.mem_append, List.mem_filter,
      List.mem_singleton] at hr
    rcases hr with ⟨hr, _⟩ | hr
    · exact Nat.lt_succ_of_lt (hbound r hr)
    · subst hr
      exact Nat.lt_succ_self _

lemma WFitems_upsertAll (db : DB) (fid : Nat) (batch : List ItemData)
    (now : Nat) (h : db.WFitems) : (upsertAll db fid batch now).WFitems := by
  induction batch generalizing db with
  | nil => exact h
  | cons it rest ih =>
      exact ih (upsertItem db fid it now) (WFitems_upsertItem db fid it now h)

/-- The upsert loop never touches rows owned by a different source. -/
lemma upsertItem_other_feeds (db : DB) (fid : Nat) (it : ItemData) (now : Nat) :
    (upsertItem db fid it now).items.filter (fun r => !(r.feed_id = fid : Bool)) =
      db.items.filter (fun r => !(r.feed_id = fid : Bool)) := by
  simp only [upsertItem, List.filter_append, List.filter_filter]
  have h1 : db.items.filter
      (fun a => !(a.feed_id = fid : Bool) &&
        !(a.feed_id = fid ∧ a.guid = it.guid : Bool)) =
      db.items.filter (fun a => !(a.feed_id = fid : Bool)) := by
    apply List.filter_congr
    intro a _
    by_cases h : a.feed_id = fid <;> simp [h]
  rw [h1]
  simp

lemma upsertAll_other_feeds (db : DB) (fid : Nat) (batch : List ItemData)
    (now : Nat) :
    (upsertAll db fid batch now).items.filter
        (fun r => !(r.feed_id = fid : Bool)) =
      db.items.filter (fun r => !(r.feed_id = fid : Bool)) := by
  induction batch generalizing db with
  | nil => rfl
  | cons it rest ih =>
      calc (upsertAll (upsertItem db fid it now) fid rest now).items.filter
            (fun r => !(r.feed_id = fid : Bool))
          = (upsertItem db fid it now).items.filter
              (fun r => !(r.feed_id = fid : Bool)) := ih _
        _ = _ := upsertItem_other_feeds db fid it now

/-- The trim delete `WHERE feed_id = ? AND id NOT IN (...)` keeps every
row of every other source. -/
lemma trimFeed_other_feeds (db : DB) (fid maxItems : Nat) :
    (trimFeed db fid maxItems).items.filter
        (fun r => !(r.feed_id = fid : Bool)) =
      db.items.filter (fun r => !(r.feed_id = fid : Bool)) := by
  simp only [trimFeed, List.filter_filter]
  apply List.filter_congr
  intro a _
  by_cases h : a.feed_id = fid <;> simp [h]

/-- After the trim, the source's rows are its pre-trim rows restricted to
the ids selected by the `ORDER BY pub_date DESC LIMIT max_items` subquery. -/
lemma feedRows_trimFeed (db : DB) (fid maxItems : Nat) :
    feedRows (trimFeed db fid maxItems) fid =
      (feedRows db fid).filter
        (fun r => (r.id ∈ keepIds db fid maxItems : Bool)) := by
  simp only [feedRows, trimFeed, List.filter_filter]
  apply List.filter_congr
  intro a _
  by_cases h : a.feed_id = fid <;> by_cases h2 : a.id ∈ keepIds db fid maxItems <;>
    simp [h, h2]

/-- Restricting a source's rows to the trim subquery's ids is, up to
permutation, taking the `maxItems` newest rows of the sorted list. -/
lemma filter_keepIds_perm (db : DB) (fid maxItems : Nat) (hWF : db.WFitems) :
    List.Perm
      ((feedRows db fid).filter
        (fun r => (r.id ∈ keepIds db fid maxItems : Bool)))
      ((List.insertionSort itemDescR (feedRows db fid)).take maxItems) := by
  set F := feedRows db fid with hF
  set S := List.insertionSort itemDescR F with hSdef
  set K := S.take maxItems with hK
  set D := S.drop maxItems with hD
  have hkeep : keepIds db fid maxItems = K.map (fun r => r.id) := rfl
  have hSF : List.Perm S F := List.perm_insertionSort itemDescR F
  have hnodF : (F.map (fun r => r.id)).Nodup :=
    ((List.filter_sublist _).map _).nodup hWF.1
  have hnodS : (S.map (fun r => r.id)).Nodup :=
    ((hSF.map _).nodup_iff).mpr hnodF
  have hKD : K ++ D = S := List.take_append_drop maxItems S
  have hdisj : ∀ a ∈ D, a.id ∉ K.map (fun r => r.id) := by
    have h := hnodS
    rw [← hKD, List.map_append, List.nodup_append] at h
    intro a ha hmem
    exact h.2.2 hmem (List.mem_map_of_mem _ ha)
  have hfK : K.filter (fun r => (r.id ∈ keepIds db fid maxItems : Bool)) = K := by
    apply List.filter_eq_self.mpr
    intro a ha
    simp only [hkeep, decide_eq_true_eq]
    exact List.mem_map_of_mem _ ha
  have hfD : D.filter (fun r => (r.id ∈ keepIds db fid maxItems : Bool)) = [] := by
    apply List.filter_eq_nil_iff.mpr
    intro a ha hmem
    rw [hkeep] at hmem
    exact hdisj a ha (by simpa using hmem)
  have hfS : S.filter (fun r => (r.id ∈ keepIds db fid maxItems : Bool)) = K := by
    rw [← hKD, List.filter_append, hfK, hfD, List.append_nil]
  have hfin := (hSF.filter
    (fun r => (r.id ∈ keepIds db fid maxItems : Bool))).symm
  rw [hfS] at hfin
  exact hfin

/-- C1: after `add_feed_items` with cap `max_items`, the rows stored for
the source are exactly the top `max_items` rows (by publish timestamp
descending) of the post-upsert row set: their count is
`min max_items total`, each survivor comes from the post-upsert set, every
survivor's timestamp dominates every deleted row's timestamp, and rows of
every other source are untouched. -/
theorem add_feed_items_retention (db : DB) (fid : Nat) (batch : List ItemData)
    (maxItems now : Nat) (hWF : db.WFitems) :
    (add_feed_items db fid batch maxItems now).items.filter
        (fun r => !(r.feed_id = fid : Bool)) =
      db.items.filter (fun r => !(r.feed_id = fid : Bool)) ∧
    (feedRows (add_feed_items db fid batch maxItems now) fid).length =
      min maxItems (feedRows (upsertAll db fid batch now) fid).length ∧
    (∀ r ∈ feedRows (add_feed_items db fid batch maxItems now) fid,
      r ∈ feedRows (upsertAll db fid batch now) fid) ∧
    (∀ r ∈ feedRows (add_feed_items db fid batch maxItems now) fid,
      ∀ q ∈ feedRows (upsertAll db fid batch now) fid,
        q ∉ feedRows (add_feed_items db fid batch maxItems now) fid →
          q.pub_date ≤ r.pub_date) := by
  have hWFU : (upsertAll db fid batch now).WFitems :=
    WFitems_upsertAll db fid batch now hWF
  set dbU := upsertAll db fid batch now with hdbU
  have hitems :
      (add_feed_items db fid batch maxItems now).items =
        dbU.items.filter
          (fun r => !(r.feed_id = fid ∧ r.id ∉ keepIds dbU fid maxItems : Bool)) :=
    rfl
  have hrows : feedRows (add_feed_items db fid batch maxItems now) fid =
      (feedRows dbU fid).filter
        (fun r => (r.id ∈ keepIds dbU fid maxItems : Bool)) :=
    feedRows_trimFeed (stampSource dbU fid now) fid maxItems
  have hperm := filter_keepIds_perm dbU fid maxItems hWFU
  have hSF := List.perm_insertionSort itemDescR (feedRows dbU fid)
  have hsorted : List.Pairwise itemDescR
      (List.insertionSort itemDescR (feedRows dbU fid)) :=
    List.sorted_insertionSort itemDescR (feedRows dbU fid)
  refine ⟨?_, ?_, ?_, ?_⟩
  · calc (add_feed_items db fid batch maxItems now).items.filter
          (fun r => !(r.feed_id = fid : Bool))
        = dbU.items.filter (fun r => !(r.feed_id = fid : Bool)) :=
          trimFeed_other_feeds (stampSource dbU fid now) fid maxItems
      _ = db.items.filter (fun r => !(r.feed_id = fid : Bool)) :=
          upsertAll_other_feeds db fid batch now
  · rw [hrows, hperm.length_eq, List.length_take, hSF.length_eq]
  · intro r hr
    rw [hrows] at hr
    exact List.mem_of_mem_filter hr
  · intro r hr q hq hqn
    rw [hrows] at hr hqn
    have hrK := hperm.mem_iff.mp hr
    have hqS : q ∈ List.insertionSort itemDescR (feedRows dbU fid) :=
      hSF.mem_iff.mpr hq
    rw [← List.take_append_drop maxItems
      (List.insertionSort itemDescR (feedRows dbU fid)), List.mem_append] at hqS
    rcases hqS with hqK | hqD
    · exfalso
      apply hqn
      apply List.mem_filter.mpr
      refine ⟨hq, ?_⟩
      simp only [decide_eq_true_eq]
      exact List.mem_map_of_mem _ hqK
    · have hp := hsorted
      rw [← List.take_append_drop maxItems
        (List.insertionSort itemDescR (feedRows dbU fid))] at hp
      exact (List.pairwise_append.mp hp).2.2 r hrK q hqD

/-- C1 witness: two sources, a batch pushing source 1 over its cap of 2. -/
theorem add_feed_items_retention_witness :
    (let db : DB :=
      { sources := [], items :=
          [{ id := 0, feed_id := 1, guid := "a", title := "a", link := "",
             description := "", pub_date := 10, author := "", created_at := 0 },
           { id := 1, feed_id := 2, guid := "x", title := "x", link := "",
             description := "", pub_date := 50, author := "", created_at := 0 },
           { id := 2, feed_id := 1, guid := "b", title := "b", link := "",
             description := "", pub_date := 30, author := "", created_at := 0 }],
        nextSourceId := 0, nextItemId := 3 }
     let batch : List ItemData :=
      [{ guid := "c", title := "c", link := "", description := "",
         pub_date := 20, author := "" },
       { guid := "d", title := "d", link := "", description := "",
         pub_date := 40, author := "" }]
     db.WFitems ∧
      ((add_feed_items db 1 batch 2 7).items.filter
          (fun r => !(r.feed_id = 1 : Bool)) =
        db.items.filter (fun r => !(r.feed_id = 1 : Bool)) ∧
      (feedRows (add_feed_items db 1 batch 2 7) 1).length =
        min 2 (feedRows (upsertAll db 1 batch 7) 1).length ∧
      (∀ r ∈ feedRows (add_feed_items db 1 batch 2 7) 1,
        r ∈ feedRows (upsertAll db 1 batch 7) 1) ∧
      (∀ r ∈ feedRows (add_feed_items db 1 batch 2 7) 1,
        ∀ q ∈ feedRows (upsertAll db 1 batch 7) 1,
          q ∉ feedRows (add_feed_items db 1 batch 2 7) 1 →
            q.pub_date ≤ r.pub_date))) :=
  ⟨by decide, add_feed_items_retention _ 1 _ 2 7 (by decide)⟩

/-- C10 witness: re-fetching guid "g" moves it from id 0 to the fresh id. -/
theorem upsert_changes_surrogate_id_witness :
    (let db : DB :=
      { sources := [], items :=
          [{ id := 0, feed_id := 1, guid := "g", title := "old", link := "l",
             description := "oldbody", pub_date := 5, author := "a",
             created_at := 0 }],
        nextSourceId := 0, nextItemId := 1 }
     let it : ItemData :=
      { guid := "g", title := "new", link := "l2", description := "newbody",
        pub_date := 9, author := "b" }
     let r : FeedItem :=
      { id := 0, feed_id := 1, guid := "g", title := "old", link := "l",
        description := "oldbody", pub_date := 5, author := "a",
        created_at := 0 }
     (db.WFitems ∧ r ∈ db.items ∧ r.feed_id = 1 ∧ r.guid = it.guid) ∧
      (((upsertItem db 1 it 7).items.filter (keyP 1 it.guid)).map
          (fun x => (x.id, x.created_at)) = [(db.nextItemId, 7)] ∧
        r.id ≠ db.nextItemId ∧
        ∀ x ∈ (upsertItem db 1 it 7).items, x.id ≠ r.id)) :=
  ⟨by decide,
    upsert_changes_surrogate_id _ 1 _ 7 _ (by decide) (by decide) (by decide)
      (by decide)⟩

/-! ## Normalizer, refresher and combined feed (`app/main.py`) -/

/-- `DEFAULT_MAX_ITEMS` (`main.py` line 34).  The `feed_sources` table has
no `max_items` column, so `feed.get('max_items', DEFAULT_MAX_ITEMS) or
DEFAULT_MAX_ITEMS` always evaluates to this default. -/
def DEFAULT_MAX_ITEMS : Nat := 30

/-- A parsed feedparser entry as consumed by `fetch_and_update_feed`
(`main.py` lines 67-82): every field is optional.  `published_parsed` /
`updated_parsed` model `hasattr(entry, ...) and entry...._parsed` being
truthy. -/
structure RawEntry where
  entryId : Option String
  link : Option String
  title : Option String
  summary : Option String
  description : Option String
  published_parsed : Option Nat
  updated_parsed : Option Nat
  author : Option String
  deriving DecidableEq

/-- Timestamp resolution in `fetch_and_update_feed` (`main.py` lines
69-80): `pub_date = published_parsed if present, elif updated_parsed,
else None`, then the stored value is `pub_date or datetime.now()`. -/
def resolvePubDate (e : RawEntry) (now : Nat) : Nat :=
  let pd : Option Nat :=
    if e.published_parsed.isSome then e.published_parsed
    else if e.updated_parsed.isSome then e.updated_parsed
    else none
  pd.getD now

/-- The item dictionary built per entry in `fetch_and_update_feed`
(`main.py` lines 75-82), with every feedparser fallback chain. -/
def normalizeEntry (e : RawEntry) (now : Nat) : ItemData :=
  { guid := e.entryId.getD (e.link.getD ""),
    title := e.title.getD "Без заголовка",
    link := e.link.getD "",
    description := e.summary.getD (e.description.getD ""),
    pub_date := resolvePubDate e now,
    author := e.author.getD "" }

/-- Outcome of the HTTP fetch plus `feedparser.parse`: `failure` covers
any raised exception (non-2xx via `raise_for_status`, timeout, network
error), `parsed` carries the bozo flag and the entry list. -/
inductive FetchResult where
  | failure
  | parsed (bozo : Bool) (entries : List RawEntry)
  deriving DecidableEq

/-- `fetch_and_update_feed` (`main.py` lines 53-89): any exception is
caught (state unchanged); a bozo document with zero entries returns
early; the first `max_items` entries are normalized; `add_feed_items` is
called only when the normalized batch is nonempty. -/
def fetch_and_update_feed (db : DB) (fid : Nat) (res : FetchResult)
    (maxItems now : Nat) : DB :=
  match res with
  | .failure => db
  | .parsed bozo entries =>
      if bozo ∧ entries = [] then db
      else
        let items := (entries.take maxItems).map (fun e => normalizeEntry e now)
        if items = [] then db else add_feed_items db fid items maxItems now

/-- `update_all_feeds` (`main.py` lines 92-101): refresh every
registered source from the snapshot list, then run the global age
cleanup with `cutoff = now - CLEANUP_DAYS`. -/
def update_all_feeds (db : DB) (oracle : Nat → FetchResult)
    (now cutoff : Nat) : DB :=
  cleanup_old_items
    (db.sources.foldl
      (fun d s => fetch_and_update_feed d s.id (oracle s.id)
        DEFAULT_MAX_ITEMS now) db)
    cutoff

/-- Item list of `get_combined_rss` (`main.py` lines 237-264): every
source contributes its `get_feed_items(feed_id, 30)` page, the merged
list is re-sorted by `pub_date` descending (Python `list.sort` with
`reverse=True`, modelled by the stable insertion sort) and truncated to
100.  The `source_name` tag only decorates the rendered description and
is omitted. -/
def combined_rss_items (db : DB) : List FeedItem :=
  (List.insertionSort itemDescR
    (db.sources.foldl
      (fun acc s => acc ++ get_feed_items db s.id DEFAULT_MAX_ITEMS) [])).take
    100

/-- Whether `fetch_and_update_feed` reaches its `add_feed_items` call:
the fetch parsed, was not a zero-entry bozo document, and the normalized
batch is nonempty. -/
def writesBack (res : FetchResult) (maxItems : Nat) : Bool :=
  match res with
  | .failure => false
  | .parsed bozo entries =>
      !(bozo && entries.isEmpty) && !(entries.take maxItems).isEmpty

lemma upsertAll_sources (db : DB) (fid : Nat) (batch : List ItemData)
    (now : Nat) : (upsertAll db fid batch now).sources = db.sources := by
  induction batch generalizing db with
  | nil => rfl
  | cons it rest ih => exact ih (upsertItem db fid it now)

lemma add_feed_items_sources (db : DB) (fid : Nat) (batch : List ItemData)
    (maxItems now : Nat) :
    (add_feed_items db fid batch maxItems now).sources =
      db.sources.map
        (fun s => if s.id = fid then { s with last_updated := some now }
          else s) := by
  show (stampSource (upsertAll db fid batch now) fid now).sources = _
  rw [stampSource, upsertAll_sources]

lemma add_feed_items_sources_stamped (db : DB) (fid : Nat)
    (batch : List ItemData) (maxItems now : Nat) :
    (add_feed_items db fid batch maxItems now).sources.filter
        (fun s => (s.id = fid : Bool)) =
      (db.sources.filter (fun s => (s.id = fid : Bool))).map
        (fun s => { s with last_updated := some now }) := by
  rw [add_feed_items_sources, List.filter_map]
  have hc : db.sources.filter
      ((fun s : FeedSource => (s.id = fid : Bool)) ∘
        (fun s => if s.id = fid then { s with last_updated := some now }
          else s)) =
      db.sources.filter (fun s => (s.id = fid : Bool)) := by
    apply List.filter_congr
    intro a _
    by_cases h : a.id = fid <;> simp [Function.comp, h]
  rw [hc]
  apply List.map_congr_left
  intro a ha
  have : a.id = fid := by simpa using (List.mem_filter.mp ha).2
  simp [this]

lemma add_feed_items_sources_other (db : DB) (fid : Nat)
    (batch : List ItemData) (maxItems now j : Nat) (hj : j ≠ fid) :
    (add_feed_items db fid batch maxItems now).sources.filter
        (fun s => (s.id = j : Bool)) =
      db.sources.filter (fun s => (s.id = j : Bool)) := by
  rw [add_feed_items_sources, List.filter_map]
  have hc : db.sources.filter
      ((fun s : FeedSource => (s.id = j : Bool)) ∘
        (fun s => if s.id = fid then { s with last_updated := some now }
          else s)) =
      db.sources.filter (fun s => (s.id = j : Bool)) := by
    apply List.filter_congr
    intro a _
    by_cases h : a.id = fid <;> simp [Function.comp, h]
  rw [hc]
  have : ∀ a ∈ db.sources.filter (fun s => (s.id = j : Bool)),
      (if a.id = fid then { a with last_updated := some now } else a) = a := by
    intro a ha
    have haj : a.id = j := by simpa using (List.mem_filter.mp ha).2
    rw [if_neg (by rw [haj]; exact hj)]
  rw [List.map_congr_left this]
  exact List.map_id' _

lemma add_feed_items_sources_ids (db : DB) (fid : Nat)
    (batch : List ItemData) (maxItems now : Nat) :
    (add_feed_items db fid batch maxItems now).sources.map (fun s => s.id) =
      db.sources.map (fun s => s.id) := by
  rw [add_feed_items_sources, List.map_map]
  apply List.map_congr_left
  intro a _
  by_cases h : a.id = fid <;> simp [Function.comp, h]

lemma upsertItem_feedRows_other (db : DB) (fid : Nat) (it : ItemData)
    (now j : Nat) (hj : j ≠ fid) :
    feedRows (upsertItem db fid it now) j = feedRows db j := by
  simp only [feedRows, upsertItem, List.filter_append, List.filter_filter]
  have h1 : db.items.filter
      (fun a => (a.feed_id = j : Bool) &&
        !(a.feed_id = fid ∧ a.guid = it.guid : Bool)) =
      db.items.filter (fun a => (a.feed_id = j : Bool)) := by
    apply List.filter_congr
    intro a _
    by_cases h : a.feed_id = j
    · simp [h, hj]
    · simp [h]
  rw [h1]
  have h2 : List.filter (fun a => (a.feed_id = j : Bool))
      [({ id := db.nextItemId, feed_id := fid, guid := it.guid,
          title := it.title, link := it.link, description := it.description,
          pub_date := it.pub_date, author := it.author,
          created_at := now } : FeedItem)] = [] := by
    simp [Ne.symm hj]
  rw [h2, List.append_nil]

lemma upsertAll_feedRows_other (db : DB) (fid : Nat) (batch : List ItemData)
    (now j : Nat) (hj : j ≠ fid) :
    feedRows (upsertAll db fid batch now) j = feedRows db j := by
  induction batch generalizing db with
  | nil => rfl
  | cons it rest ih =>
      calc feedRows (upsertAll (upsertItem db fid it now) fid rest now) j
          = feedRows (upsertItem db fid it now) j := ih _
        _ = feedRows db j := upsertItem_feedRows_other db fid it now j hj

lemma trimFeed_feedRows_other (db : DB) (fid maxItems j : Nat)
    (hj : j ≠ fid) :
    feedRows (trimFeed db fid maxItems) j = feedRows db j := by
  simp only [feedRows, trimFeed, List.filter_filter]
  apply List.filter_congr
  intro a _
  by_cases h : a.feed_id = j
  · simp [h, hj]
  · simp [h]

lemma add_feed_items_feedRows_other (db : DB) (fid : Nat)
    (batch : List ItemData) (maxItems now j : Nat) (hj : j ≠ fid) :
    feedRows (add_feed_items db fid batch maxItems now) j = feedRows db j := by
  calc feedRows (add_feed_items db fid batch maxItems now) j
      = feedRows (stampSource (upsertAll db fid batch now) fid now) j :=
        trimFeed_feedRows_other _ fid maxItems j hj
    _ = feedRows (upsertAll db fid batch now) j := rfl
    _ = feedRows db j := upsertAll_feedRows_other db fid batch now j hj

lemma fetch_feedRows_other (db : DB) (fid : Nat) (res : FetchResult)
    (maxItems now j : Nat) (hj : j ≠ fid) :
    feedRows (fetch_and_update_feed db fid res maxItems now) j =
      feedRows db j := by
  cases res with
  | failure => rfl
  | parsed bozo entries =>
      show feedRows (if bozo ∧ entries = [] then db else _) j = feedRows db j
      split
      · rfl
      · show feedRows (if _ = ([] : List ItemData) then db else _) j = _
        split
        · rfl
        · exact add_feed_items_feedRows_other db fid _ maxItems now j hj

lemma fetch_sources_other (db : DB) (fid : Nat) (res : FetchResult)
    (maxItems now j : Nat) (hj : j ≠ fid) :
    (fetch_and_update_feed db fid res maxItems now).sources.filter
        (fun s => (s.id = j : Bool)) =
      db.sources.filter (fun s => (s.id = j : Bool)) := by
  cases res with
  | failure => rfl
  | parsed bozo entries =>
      show (if bozo ∧ entries = [] then db else _).sources.filter _ = _
      split
      · rfl
      · show (if _ = ([] : List ItemData) then db else _).sources.filter _ = _
        split
        · rfl
        · exact add_feed_items_sources_other db fid _ maxItems now j hj

lemma fetch_sources_ids (db : DB) (fid : Nat) (res : FetchResult)
    (maxItems now : Nat) :
    (fetch_and_update_feed db fid res maxItems now).sources.map
        (fun s => s.id) =
      db.sources.map (fun s => s.id) := by
  cases res with
  | failure => rfl
  | parsed bozo entries =>
      show (if bozo ∧ entries = [] then db else _).sources.map _ = _
      split
      · rfl
      · show (if _ = ([] : List ItemData) then db else _).sources.map _ = _
        split
        · rfl
        · exact add_feed_items_sources_ids db fid _ maxItems now

lemma fetch_sources_stamped (db : DB) (fid : Nat) (res : FetchResult)
    (maxItems now : Nat) (h : writesBack res maxItems = true) :
    (fetch_and_update_feed db fid res maxItems now).sources.filter
        (fun s => (s.id = fid : Bool)) =
      (db.sources.filter (fun s => (s.id = fid : Bool))).map
        (fun s => { s with last_updated := some now }) := by
  cases res with
  | failure => cases h
  | parsed bozo entries =>
      simp only [writesBack, Bool.and_eq_true, Bool.not_eq_true] at h
      obtain ⟨h1, h2⟩ := h
      have hb : ¬ (bozo ∧ entries = []) := by
        intro hc
        rw [hc.2] at h1
        simp [hc.1] at h1
      have hne : ¬ ((entries.take maxItems).map
          (fun e => normalizeEntry e now) = []) := by
        rw [List.map_eq_nil_iff]
        intro hc
        rw [hc] at h2
        simp at h2
      show (if bozo ∧ entries = [] then db else _).sources.filter _ = _
      rw [if_neg hb]
      show (if _ = ([] : List ItemData) then db else _).sources.filter _ = _
      rw [if_neg hne]
      exact add_feed_items_sources_stamped db fid _ maxItems now

/-- A refresh with a raised exception leaves the state untouched
(the `except` clause of `fetch_and_update_feed`). -/
lemma fetch_failure_id (db : DB) (fid maxItems now : Nat) :
    fetch_and_update_feed db fid .failure maxItems now = db := rfl

/-- A refresh whose content is unparseable with zero recovered entries
(bozo and empty) returns early, leaving the state untouched. -/
lemma fetch_bozo_empty_id (db : DB) (fid maxItems now : Nat) :
    fetch_and_update_feed db fid (.parsed true []) maxItems now = db := rfl

/-- Either recoverable per-source failure mode of the refresher: a raised
fetch exception, or unparseable content with zero recovered entries. -/
def failedFetch (res : FetchResult) : Prop :=
  res = .failure ∨ res = .parsed true []

instance (res : FetchResult) : Decidable (failedFetch res) := by
  unfold failedFetch; infer_instance

lemma fold_refresh_frame (oracle : Nat → FetchResult) (now fid : Nat)
    (srcs : List FeedSource) (db : DB)
    (hall : ∀ s ∈ srcs, s.id = fid → failedFetch (oracle s.id)) :
    feedRows (srcs.foldl
        (fun d s => fetch_and_update_feed d s.id (oracle s.id)
          DEFAULT_MAX_ITEMS now) db) fid = feedRows db fid ∧
      (srcs.foldl
          (fun d s => fetch_and_update_feed d s.id (oracle s.id)
            DEFAULT_MAX_ITEMS now) db).sources.filter
          (fun s => (s.id = fid : Bool)) =
        db.sources.filter (fun s => (s.id = fid : Bool)) := by
  induction srcs generalizing db with
  | nil => exact ⟨rfl, rfl⟩
  | cons s rest ih =>
      simp only [List.foldl_cons]
      by_cases hsid : s.id = fid
      · have hfail : failedFetch (oracle s.id) :=
          hall s (List.mem_cons_self s rest) hsid
        have hstep : fetch_and_update_feed db s.id (oracle s.id)
            DEFAULT_MAX_ITEMS now = db := by
          rcases hfail with hf | hf <;> rw [hf] <;> rfl
        rw [hstep]
        exact ih db (fun t ht => hall t (List.mem_cons_of_mem s ht))
      · have hj : fid ≠ s.id := fun hc => hsid hc.symm
        obtain ⟨ihr, ihs⟩ := ih (fetch_and_update_feed db s.id (oracle s.id)
          DEFAULT_MAX_ITEMS now) (fun t ht => hall t (List.mem_cons_of_mem s ht))
        constructor
        · rw [ihr]
          exact fetch_feedRows_other db s.id (oracle s.id)
            DEFAULT_MAX_ITEMS now fid hj
        · rw [ihs]
          exact fetch_sources_other db s.id (oracle s.id)
            DEFAULT_MAX_ITEMS now fid hj

lemma fold_refresh_sources_ids (oracle : Nat → FetchResult) (now : Nat)
    (srcs : List FeedSource) (db : DB) :
    (srcs.foldl
        (fun d s => fetch_and_update_feed d s.id (oracle s.id)
          DEFAULT_MAX_ITEMS now) db).sources.map (fun s => s.id) =
      db.sources.map (fun s => s.id) := by
  induction srcs generalizing db with
  | nil => rfl
  | cons s rest ih =>
      simp only [List.foldl_cons]
      rw [ih]
      exact fetch_sources_ids db s.id (oracle s.id) DEFAULT_MAX_ITEMS now

lemma feedRows_cleanup (db : DB) (cutoff j : Nat) :
    feedRows (cleanup_old_items db cutoff) j =
      (feedRows db j).filter (fun r => !(r.pub_date < cutoff : Bool)) := by
  simp only [feedRows, cleanup_old_items, List.filter_filter]
  apply List.filter_congr
  intro a _
  exact Bool.and_comm _ _

/-- C8 counterexample: when the failing source owns an entry older than
the age-cleanup cutoff, `update_all_feeds` deletes that entry (the global
cleanup at the end of the batch runs over every source, the failing one
included), so "the failing source's stored entries are left unchanged" is
false as stated.  Here source 2 times out while sources 1 and 3 fetch
fine, and source 2's entry at `pub_date 0` is removed by the cleanup. -/
theorem update_all_feeds_modifies_failing_source :
    (let db : DB :=
      { sources :=
          [{ id := 1, url := "u1", name := "S1", last_updated := none,
             created_at := 0 },
           { id := 2, url := "u2", name := "S2", last_updated := none,
             created_at := 0 },
           { id := 3, url := "u3", name := "S3", last_updated := none,
             created_at := 0 }],
        items :=
          [{ id := 0, feed_id := 2, guid := "old", title := "old", link := "",
             description := "", pub_date := 0, author := "", created_at := 0 }],
        nextSourceId := 4, nextItemId := 1 }
     let oracle : Nat → FetchResult := fun n =>
      if n = 2 then .failure
      else .parsed false
        [{ entryId := some "e", link := some "l", title := some "t",
           summary := some "s", description := none,
           published_parsed := some 50, updated_parsed := none,
           author := some "a" }]
     oracle 2 = .failure ∧
      feedRows (update_all_feeds db oracle 100 10) 2 ≠ feedRows db 2) := by
  decide

/-- C8 (amended): refreshing a single source never propagates a failure
to its caller — both recoverable failure modes of the claim (a raised
fetch error, covering non-2xx, timeout and network errors, and
unparseable content with zero recovered entries, `failedFetch`) leave
the refresh silent, and `update_all_feeds` is total, so the batch
completes for every other source.  The failing source's `feed_sources`
row — in particular its `last_updated` — is unchanged and its stored
entries are left unchanged, except that the global age cleanup ending
every batch deletes entries older than the cutoff from every source,
the failing one included; the other sources are updated — formalised
as: every source whose fetch recovered entries (a source recovering
none is itself a failing source) has its `last_updated` stamped to
`now`. -/
theorem update_all_feeds_fault_isolation (db : DB)
    (oracle : Nat → FetchResult) (now cutoff fid : Nat)
    (hWF : db.WFsources) (hfail : failedFetch (oracle fid)) :
    ((update_all_feeds db oracle now cutoff).sources.filter
        (fun s => (s.id = fid : Bool)) =
      db.sources.filter (fun s => (s.id = fid : Bool))) ∧
    (feedRows (update_all_feeds db oracle now cutoff) fid =
      (feedRows db fid).filter (fun r => !(r.pub_date < cutoff : Bool))) ∧
    (∀ s ∈ db.sources, writesBack (oracle s.id) DEFAULT_MAX_ITEMS = true →
      ((update_all_feeds db oracle now cutoff).sources.filter
          (fun t => (t.id = s.id : Bool))) ≠ [] ∧
      (∀ t ∈ (update_all_feeds db oracle now cutoff).sources.filter
          (fun t => (t.id = s.id : Bool)), t.last_updated = some now)) := by
  have hall : ∀ s ∈ db.sources, s.id = fid → failedFetch (oracle s.id) := by
    intro s _ h
    rw [h]
    exact hfail
  have hframe := fold_refresh_frame oracle now fid db.sources db hall
  refine ⟨?_, ?_, ?_⟩
  · exact hframe.2
  · show feedRows (cleanup_old_items _ cutoff) fid = _
    rw [feedRows_cleanup, hframe.1]
  · intro s hs hwr
    obtain ⟨l1, l2, hdecomp⟩ := List.append_of_mem hs
    have hl2 : ∀ t ∈ l2, t.id ≠ s.id := by
      have hids := hWF.2.1
      rw [hdecomp, List.map_append, List.map_cons, List.nodup_append] at hids
      intro t ht hc
      exact (List.nodup_cons.mp hids.2.1).1 (hc ▸ List.mem_map_of_mem _ ht)
    have hall2 : ∀ t ∈ l2, t.id = s.id → failedFetch (oracle t.id) := by
      intro t ht hc
      exact absurd hc (hl2 t ht)
    have hfold :
        (List.foldl
            (fun d u => fetch_and_update_feed d u.id (oracle u.id)
              DEFAULT_MAX_ITEMS now) db db.sources).sources.filter
          (fun t => (t.id = s.id : Bool)) =
        ((List.foldl
            (fun d u => fetch_and_update_feed d u.id (oracle u.id)
              DEFAULT_MAX_ITEMS now) db l1).sources.filter
          (fun t => (t.id = s.id : Bool))).map
            (fun t => { t with last_updated := some now }) := by
      conv_lhs => rw [hdecomp]
      rw [List.foldl_append, List.foldl_cons]
      rw [(fold_refresh_frame oracle now s.id l2 _ hall2).2]
      exact fetch_sources_stamped _ s.id (oracle s.id) DEFAULT_MAX_ITEMS now hwr
    have hne : (List.foldl
        (fun d u => fetch_and_update_feed d u.id (oracle u.id)
          DEFAULT_MAX_ITEMS now) db l1).sources.filter
        (fun t => (t.id = s.id : Bool)) ≠ [] := by
      have hids : (List.foldl
          (fun d u => fetch_and_update_feed d u.id (oracle u.id)
            DEFAULT_MAX_ITEMS now) db l1).sources.map (fun t => t.id) =
          db.sources.map (fun t => t.id) :=
        fold_refresh_sources_ids oracle now l1 db
      have hmem : s.id ∈ (List.foldl
          (fun d u => fetch_and_update_feed d u.id (oracle u.id)
            DEFAULT_MAX_ITEMS now) db l1).sources.map (fun t => t.id) := by
        rw [hids]
        exact List.mem_map_of_mem _ hs
      obtain ⟨u, hu, huid⟩ := List.mem_map.mp hmem
      exact List.ne_nil_of_mem
        (List.mem_filter.mpr ⟨hu, by simpa using huid⟩)
    constructor
    · show (cleanup_old_items _ cutoff).sources.filter _ ≠ []
      show (List.foldl _ db db.sources).sources.filter _ ≠ []
      rw [hfold]
      intro hc
      exact hne (List.map_eq_nil_iff.mp hc)
    · intro t ht
      have ht' : t ∈ (List.foldl
          (fun d u => fetch_and_update_feed d u.id (oracle u.id)
            DEFAULT_MAX_ITEMS now) db db.sources).sources.filter
          (fun t => (t.id = s.id : Bool)) := ht
      rw [hfold] at ht'
      obtain ⟨u, _, hu⟩ := List.mem_map.mp ht'
      rw [← hu]

/-- C8 witness: three sources, source 2's fetch raises, sources 1 and 3
parse one entry each. -/
theorem update_all_feeds_fault_isolation_witness :
    (let db : DB :=
      { sources :=
          [{ id := 1, url := "u1", name := "S1", last_updated := none,
             created_at := 0 },
           { id := 2, url := "u2", name := "S2", last_updated := none,
             created_at := 0 },
           { id := 3, url := "u3", name := "S3", last_updated := none,
             created_at := 0 }],
        items :=
          [{ id := 0, feed_id := 2, guid := "old", title := "old", link := "",
             description := "", pub_date := 20, author := "", created_at := 0 }],
        nextSourceId := 4, nextItemId := 1 }
     let oracle : Nat → FetchResult := fun n =>
      if n = 2 then .failure
      else .parsed false
        [{ entryId := some "e", link := some "l", title := some "t",
           summary := some "s", description := none,
           published_parsed := some 50, updated_parsed := none,
           author := some "a" }]
     (db.WFsources ∧ failedFetch (oracle 2)) ∧
      (((update_all_feeds db oracle 100 10).sources.filter
          (fun s => (s.id = 2 : Bool)) =
        db.sources.filter (fun s => (s.id = 2 : Bool))) ∧
      (feedRows (update_all_feeds db oracle 100 10) 2 =
        (feedRows db 2).filter (fun r => !(r.pub_date < 10 : Bool))) ∧
      (∀ s ∈ db.sources, writesBack (oracle s.id) DEFAULT_MAX_ITEMS = true →
        ((update_all_feeds db oracle 100 10).sources.filter
            (fun t => (t.id = s.id : Bool))) ≠ [] ∧
        (∀ t ∈ (update_all_feeds db oracle 100 10).sources.filter
            (fun t => (t.id = s.id : Bool)), t.last_updated = some 100)))) :=
  ⟨by decide,
    update_all_feeds_fault_isolation _ _ 100 10 2 (by decide) (by decide)⟩

/-- C7: the resolved publish timestamp follows the chain explicit
published timestamp → explicit updated timestamp → ingestion-time `now`,
and the normalized entry always carries it (it is a total `Nat`, never
null). -/
theorem resolvePubDate_chain (e : RawEntry) (now : Nat) :
    (normalizeEntry e now).pub_date = resolvePubDate e now ∧
      resolvePubDate e now =
        match e.published_parsed, e.updated_parsed with
        | some p, _ => p
        | none, some u => u
        | none, none => now := by
  refine ⟨rfl, ?_⟩
  rcases hp : e.published_parsed with _ | p <;>
    rcases hu : e.updated_parsed with _ | u <;>
      simp [resolvePubDate, hp, hu]

/-- C5: the combined document's item sequence is ordered by publish
timestamp descending and contains at most 100 entries. -/
theorem combined_rss_sorted_and_capped (db : DB) :
    List.Pairwise (fun a b : FeedItem => b.pub_date ≤ a.pub_date)
        (combined_rss_items db) ∧
      (combined_rss_items db).length ≤ 100 := by
  constructor
  · have h : List.Pairwise itemDescR
        (List.insertionSort itemDescR
          (db.sources.foldl
            (fun acc s => acc ++ get_feed_items db s.id DEFAULT_MAX_ITEMS)
            [])) :=
      List.sorted_insertionSort itemDescR _
    exact h.sublist (List.take_sublist _ _)
  · exact List.length_take_le _ _

/-! ## Hide / delete items (C9)

`app/main.py` imports `update_feed_source`, `hide_feed_item` and
`delete_feed_item` from `app.database`, but `app/database.py` defines
none of them (importing `app.main` raises `ImportError`), the
`feed_items` schema has no visibility column, and `get_feed_items`
applies no visibility filter. -/

/-- Modelled from the spec: `hide_entry(id)` flips the entry's visibility
flag to hidden (soft, recoverable removal).  Because the stored schema of
`app/database.py` has no visibility column to flip, the hidden mark can
only live outside the `DB` state, modelled as a list of hidden item
ids. -/
def hide_feed_item (hidden : List Nat) (itemId : Nat) : List Nat :=
  itemId :: hidden

/-- C9: hiding an entry cannot remove it from the default listing: the
`feed_items` schema has no visibility flag and `get_feed_items` (the
`list_entries` of the code) selects every row of the feed regardless of
any hidden mark, so a hidden entry still appears in the default output —
contradicting the claim. -/
theorem hidden_entry_still_listed :
    (let db : DB :=
      { sources := [], items :=
          [{ id := 1, feed_id := 1, guid := "g", title := "t", link := "",
             description := "", pub_date := 5, author := "", created_at := 0 }],
        nextSourceId := 0, nextItemId := 2 }
     let hidden := hide_feed_item [] 1
     1 ∈ hidden ∧ (get_feed_items db 1 30).map (fun r => r.id) = [1]) := by
  decide

/-! ## The document generator (`app/rss_generator.py`)

Strings are embedded as `List Char`.  `pyReplace` is Python's
`str.replace`: scan left to right, replace each non-overlapping
occurrence, never rescanning replacement output. -/

/-- Python `text.replace(o :: os, new)` on character lists (the pattern
is passed head/tail so it is provably nonempty). -/
def pyReplace (o : Char) (os : List Char) (new : List Char) :
    List Char → List Char
  | [] => []
  | c :: rest =>
      if (o :: os).isPrefixOf (c :: rest) then
        new ++ pyReplace o os new (rest.drop os.length)
      else
        c :: pyReplace o os new rest
termination_by l => l.length
decreasing_by
  · simp only [List.length_cons, List.length_drop]
    omega
  · simp

/-- `escape_xml` (`rss_generator.py` lines 18-28): guard for falsy text,
then the five chained single-character `str.replace` calls, `&` first. -/
def escape_xml (t : List Char) : List Char :=
  if t = [] then []
  else
    pyReplace '\'' [] ['&', 'a', 'p', 'o', 's', ';']
      (pyReplace '"' [] ['&', 'q', 'u', 'o', 't', ';']
        (pyReplace '>' [] ['&', 'g', 't', ';']
          (pyReplace '<' [] ['&', 'l', 't', ';']
            (pyReplace '&' [] ['&', 'a', 'm', 'p', ';'] t))))

/-- The per-character map stated by the spec: exactly `&`, `<`, `>`,
`"`, `'` become their named entities; every other character (including
non-ASCII) passes through unchanged. -/
def specEntityMap (c : Char) : List Char :=
  if c = '&' then ['&', 'a', 'm', 'p', ';']
  else if c = '<' then ['&', 'l', 't', ';']
  else if c = '>' then ['&', 'g', 't', ';']
  else if c = '"' then ['&', 'q', 'u', 'o', 't', ';']
  else if c = '\'' then ['&', 'a', 'p', 'o', 's', ';']
  else [c]

lemma pyReplace_single (o : Char) (new : List Char) (l : List Char) :
    pyReplace o [] new l =
      l.flatMap (fun c => if c = o then new else [c]) := by
  induction l with
  | nil => simp [pyReplace]
  | cons c rest ih =>
      rw [pyReplace]
      by_cases h : c = o
      · subst h
        simp [List.isPrefixOf, ih]
      · have hne : (o == c) = false := by
          simp [Ne.symm h]
        simp [List.isPrefixOf, hne, h, ih]

/-- C4: the escaping applied to entity-escaped fields is exactly the
character-wise map sending the five XML special characters to their
named entities and leaving every other character unchanged. -/
theorem escape_xml_charwise (t : List Char) :
    escape_xml t = t.flatMap specEntityMap := by
  unfold escape_xml
  by_cases h : t = []
  · subst h; simp
  · rw [if_neg h]
    rw [pyReplace_single, pyReplace_single, pyReplace_single,
      pyReplace_single, pyReplace_single]
    rw [List.flatMap_assoc, List.flatMap_assoc, List.flatMap_assoc,
      List.flatMap_assoc]
    congr 1
    funext c
    by_cases h1 : c = '&'
    · subst h1; decide
    · by_cases h2 : c = '<'
      · subst h2; decide
      · by_cases h3 : c = '>'
        · subst h3; decide
        · by_cases h4 : c = '"'
          · subst h4; decide
          · by_cases h5 : c = '\''
            · subst h5; decide
            · simp [specEntityMap, h1, h2, h3, h4, h5]

/-- The CDATA opener `<![CDATA[`. -/
def cdOpen : List Char := ['<', '!', '[', 'C', 'D', 'A', 'T', 'A', '[']

/-- The CDATA terminator `]]>`. -/
def cdClose : List Char := [']', ']', '>']

/-- The replacement string `]]]]><![CDATA[>` used by `cdata`. -/
def cdRepl : List Char := [']', ']', ']', ']', '>'] ++ cdOpen ++ ['>']

/-- The `text.replace("]]>", "]]]]><![CDATA[>")` step of `cdata`. -/
def escCD (t : List Char) : List Char := pyReplace ']' [']', '>'] cdRepl t

/-- `cdata` (`rss_generator.py` lines 30-36): falsy guard, split any
embedded terminator, wrap the result in a CDATA section. -/
def cdata (t : List Char) : List Char :=
  if t = [] then [] else cdOpen ++ escCD t ++ cdClose

/-- Whether the terminator sequence `]]>` occurs in the text. -/
def hasMarker : List Char → Bool
  | [] => false
  | c :: rest =>
      if c = ']' ∧ rest.take 2 = [']', '>'] then true else hasMarker rest

/-- Scanner for the end of a raw-text block: split the input at the
first occurrence of the terminator `]]>`; `none` when it never ends
(an XML parser rejects an unterminated CDATA section). -/
def scanCD : List Char → Option (List Char × List Char)
  | [] => none
  | c :: rest =>
      if c = ']' ∧ rest.take 2 = [']', '>'] then some ([], rest.drop 2)
      else (scanCD rest).map (fun p => (c :: p.1, p.2))

lemma scanCD_length : ∀ (l a b : List Char), scanCD l = some (a, b) →
    l.length = a.length + 3 + b.length := by
  intro l
  induction l with
  | nil => intro a b h; simp [scanCD] at h
  | cons c rest ih =>
      intro a b h
      rw [scanCD] at h
      split at h
      · rename_i hcond
        have htk : (rest.take 2).length = 2 := by rw [hcond.2]; rfl
        have hge : 2 ≤ rest.length := by
          rw [List.length_take] at htk
          omega
        simp only [Option.some.injEq, Prod.mk.injEq] at h
        obtain ⟨h1, h2⟩ := h
        subst h1
        subst h2
        simp [List.length_drop]
        omega
      · rcases Option.map_eq_some'.mp h with ⟨p, hp, hpe⟩
        have hlen := ih p.1 p.2 (by rw [hp])
        simp only [Prod.mk.injEq] at hpe
        obtain ⟨h1, h2⟩ := hpe
        subst h1
        subst h2
        simp only [List.length_cons]
        omega

/-- A parse of an element's character content as a sequence of CDATA
sections `<![CDATA[ ... ]]>` whose texts concatenate; `none` when the
content is not such a well-formed sequence. -/
def parseCD (l : List Char) : Option (List Char) :=
  if l = [] then some []
  else if cdOpen.isPrefixOf l then
    match hs : scanCD (l.drop cdOpen.length) with
    | none => none
    | some (content, rest) => (parseCD rest).map (fun u => content ++ u)
  else none
termination_by l.length
decreasing_by
  have hlen := scanCD_length (l.drop cdOpen.length) content rest hs
  have h2 : (l.drop cdOpen.length).length = l.length - cdOpen.length :=
    List.length_drop _ _
  have h3 : cdOpen.length = 9 := rfl
  omega

lemma isPrefixOf_pair (x y : Char) (r : List Char) :
    ([x, y].isPrefixOf r = true) ↔ r.take 2 = [x, y] := by
  match r with
  | [] => simp [List.isPrefixOf]
  | [a] => simp [List.isPrefixOf, List.take]
  | a :: b :: rest =>
      simp [List.isPrefixOf, List.take]
      constructor
      · rintro ⟨h1, h2⟩
        exact ⟨h1.symm, h2.symm⟩
      · rintro ⟨h1, h2⟩
        exact ⟨h1.symm, h2.symm⟩

lemma take2_shape (r : List Char) (x y : Char) (h : r.take 2 = [x, y]) :
    r = x :: y :: r.drop 2 := by
  match r with
  | [] => simp [List.take] at h
  | [a] => simp [List.take] at h
  | a :: b :: rest =>
      simp [List.take] at h
      rw [h.1, h.2]
      rfl

lemma escCD_nil : escCD [] = [] := by
  simp [escCD, pyReplace]

lemma escCD_marker (r : List Char) :
    escCD (']' :: ']' :: '>' :: r) = cdRepl ++ escCD r := by
  show pyReplace ']' [']', '>'] cdRepl (']' :: ']' :: '>' :: r) = _
  rw [pyReplace]
  simp [List.isPrefixOf]
  rfl

lemma escCD_cons (c : Char) (r : List Char)
    (h : ¬(c = ']' ∧ r.take 2 = [']', '>'])) :
    escCD (c :: r) = c :: escCD r := by
  show pyReplace ']' [']', '>'] cdRepl (c :: r) = _
  rw [pyReplace]
  have hpre : ((']' :: [']', '>']).isPrefixOf (c :: r)) = false := by
    rw [Bool.eq_false_iff]
    intro hc
    simp only [List.isPrefixOf, Bool.and_eq_true, beq_iff_eq] at hc
    apply h
    refine ⟨hc.1.symm, ?_⟩
    exact (isPrefixOf_pair ']' '>' r).mp hc.2
  rw [hpre]
  simp
  rfl

lemma hasMarker_cons_eq (c : Char) (r : List Char) :
    hasMarker (c :: r) =
      if c = ']' ∧ r.take 2 = [']', '>'] then true else hasMarker r := by
  rfl

/-- A text with no terminator is left unchanged by the split step. -/
lemma escCD_no_marker (s : List Char) (h : hasMarker s = false) :
    escCD s = s := by
  induction s with
  | nil => exact escCD_nil
  | cons c r ih =>
      rw [hasMarker_cons_eq] at h
      split at h
      · cases h
      · rename_i hcond
        rw [escCD_cons c r hcond, ih h]

/-- The head of a text cannot begin the terminator when the text's first
block is terminator-free and its own head check fails. -/
lemma not_marker_head (c : Char) (a b : List Char)
    (hcond : ¬(c = ']' ∧ a.take 2 = [']', '>'])) :
    ¬(c = ']' ∧ (a ++ ']' :: ']' :: '>' :: b).take 2 = [']', '>']) := by
  rintro ⟨hc, htake⟩
  apply hcond
  refine ⟨hc, ?_⟩
  match a with
  | [] => simp [List.take] at htake
  | [d] => simp [List.take] at htake
  | d :: e :: rest =>
      simp [List.take] at htake ⊢
      exact ⟨htake.1, htake.2⟩

lemma hasMarker_append_brackets (a : List Char) (h : hasMarker a = false) :
    hasMarker (a ++ [']', ']']) = false := by
  induction a with
  | nil => decide
  | cons c r ih =>
      rw [hasMarker_cons_eq] at h
      split at h
      · cases h
      · rename_i hcond
        rw [List.cons_append, hasMarker_cons_eq, if_neg, ih h]
        rintro ⟨hc, htake⟩
        apply hcond
        refine ⟨hc, ?_⟩
        match r with
        | [] => simp [List.take] at htake
        | [d] => simp [List.take] at htake
        | d :: e :: rest =>
            simp [List.take] at htake ⊢
            exact ⟨htake.1, htake.2⟩

/-- First-occurrence decomposition of a text containing the terminator. -/
lemma hasMarker_decomp (s : List Char) (h : hasMarker s = true) :
    ∃ a b, s = a ++ ']' :: ']' :: '>' :: b ∧ hasMarker a = false := by
  induction s with
  | nil => cases h
  | cons c r ih =>
      rw [hasMarker_cons_eq] at h
      split at h
      · rename_i hcond
        obtain ⟨hc, htake⟩ := hcond
        subst hc
        refine ⟨[], r.drop 2, ?_, rfl⟩
        rw [List.nil_append]
        rw [← take2_shape r ']' '>' htake]
      · rename_i hcond
        obtain ⟨a, b, hdec, hafree⟩ := ih h
        have hhead : ¬(c = ']' ∧ a.take 2 = [']', '>']) := by
          rintro ⟨hc, htake⟩
          apply hcond
          refine ⟨hc, ?_⟩
          rw [hdec, take2_shape a ']' '>' htake]
          rfl
        refine ⟨c :: a, b, by rw [hdec, List.cons_append], ?_⟩
        rw [hasMarker_cons_eq, if_neg hhead]
        exact hafree

lemma isPrefixOf_append_self (p q : List Char) :
    p.isPrefixOf (p ++ q) = true := by
  induction p with
  | nil => simp [List.isPrefixOf]
  | cons a p' ih => simp [List.isPrefixOf, ih]

lemma parseCD_nil : parseCD [] = some [] := by
  rw [parseCD]
  simp

lemma parseCD_open_scan (x content rest : List Char)
    (h : scanCD x = some (content, rest)) :
    parseCD (cdOpen ++ x) = (parseCD rest).map (fun u => content ++ u) := by
  rw [parseCD]
  have hne : ¬(cdOpen ++ x = []) := by simp [cdOpen]
  rw [if_neg hne]
  have hpre : cdOpen.isPrefixOf (cdOpen ++ x) = true :=
    isPrefixOf_append_self _ _
  simp only [hpre, if_true]
  have hdrop : (cdOpen ++ x).drop cdOpen.length = x := List.drop_left _ _
  split
  · rename_i hnone
    rw [hdrop, h] at hnone
    cases hnone
  · rename_i c2 r2 hsome
    rw [hdrop, h] at hsome
    simp only [Option.some.injEq, Prod.mk.injEq] at hsome
    rw [hsome.1, hsome.2]

/-- Scanning a terminator-free block followed by the terminator yields
exactly that block. -/
lemma scan_append (s t : List Char) (h : hasMarker s = false) :
    scanCD (s ++ ']' :: ']' :: '>' :: t) = some (s, t) := by
  induction s with
  | nil =>
      rw [List.nil_append, scanCD]
      simp [List.take, List.drop]
  | cons c s' ih =>
      rw [hasMarker_cons_eq] at h
      split at h
      · cases h
      · rename_i hcond
        rw [List.cons_append, scanCD,
          if_neg (not_marker_head c s' t hcond), ih h]
        rfl

lemma escCD_append_marker (a b : List Char) (h : hasMarker a = false) :
    escCD (a ++ ']' :: ']' :: '>' :: b) = a ++ (cdRepl ++ escCD b) := by
  induction a with
  | nil =>
      rw [List.nil_append, List.nil_append]
      exact escCD_marker b
  | cons c a' ih =>
      rw [hasMarker_cons_eq] at h
      split at h
      · cases h
      · rename_i hcond
        rw [List.cons_append, escCD_cons c _ (not_marker_head c a' b hcond),
          ih h, List.cons_append]

lemma parseCD_esc_bounded :
    ∀ (n : Nat) (s t : List Char), s.length ≤ n →
      parseCD (cdOpen ++ (escCD s ++ (cdClose ++ t))) =
        (parseCD t).map (fun u => s ++ u) := by
  intro n
  induction n with
  | zero =>
      intro s t hle
      have hs : s = [] := List.length_eq_zero.mp (Nat.le_zero.mp hle)
      subst hs
      rw [escCD_nil, List.nil_append]
      have hscan : scanCD (cdClose ++ t) = some ([], t) := by
        have h0 := scan_append [] t rfl
        simpa [cdClose] using h0
      rw [parseCD_open_scan _ _ _ hscan]
  | succ n ih =>
      intro s t hle
      cases hm : hasMarker s with
      | false =>
          rw [escCD_no_marker s hm]
          have hscan : scanCD (s ++ (cdClose ++ t)) = some (s, t) := by
            have h0 := scan_append s t hm
            simpa [cdClose] using h0
          rw [parseCD_open_scan _ _ _ hscan]
      | true =>
          obtain ⟨a, b, hdec, hafree⟩ := hasMarker_decomp s hm
          subst hdec
          rw [escCD_append_marker a b hafree]
          have hscan : scanCD ((a ++ (cdRepl ++ escCD b)) ++ (cdClose ++ t)) =
              some (a ++ [']', ']'],
                cdOpen ++ (('>' :: escCD b) ++ (cdClose ++ t))) := by
            have hre : (a ++ (cdRepl ++ escCD b)) ++ (cdClose ++ t) =
                (a ++ [']', ']']) ++ (']' :: ']' :: '>' ::
                  (cdOpen ++ (('>' :: escCD b) ++ (cdClose ++ t)))) := by
              simp [cdRepl, cdClose, List.append_assoc]
            rw [hre]
            exact scan_append _ _ (hasMarker_append_brackets a hafree)
          rw [parseCD_open_scan _ _ _ hscan]
          have hb : ('>' :: escCD b) = escCD ('>' :: b) :=
            (escCD_cons '>' b (by simp)).symm
          rw [hb]
          rw [ih ('>' :: b) t (by
            simp only [List.length_append, List.length_cons] at hle ⊢
            omega)]
          rw [Option.map_map]
          congr 1
          funext u
          simp [List.append_assoc]

/-- C3: round-trip of the raw-text escape block.  For every entry body —
including one containing the literal terminator `]]>` — `cdata` produces
element content that parses as a well-formed sequence of CDATA sections
(one block, never prematurely closed) whose concatenated text is exactly
the original body. -/
theorem cdata_roundtrip (s : List Char) : parseCD (cdata s) = some s := by
  by_cases h : s = []
  · subst h
    rw [cdata, if_pos rfl]
    exact parseCD_nil
  · rw [cdata, if_neg h]
    have hmain := parseCD_esc_bounded s.length s [] (Nat.le_refl _)
    rw [parseCD_nil] at hmain
    simpa using hmain

end RssAgg

